import Mathlib

/-!
Shallow embedding of the `lemmy_block` orchestration core
(`account.py`, `block_community.py`, `instance.py`, `lemmy_block.py`).

Transport calls (the `plemmy` client) are modelled as explicit outcome
values: a fallible call is an `Except String α` (or an `Option`-valued
oracle function), exactly the `sequence | failure` boundary the code's
`try/except` blocks observe.  Every wrapper and loop below is translated
from the Python source, with `while` loops rendered as fuel recursion.
-/

namespace LemmyBlock

/-- The `Account` dataclass from `account.py`: one credential set. -/
structure Account where
  account : String
  site : String
  user : String
  password : String
deriving DecidableEq

/-- The `BlockCommunity` dataclass from `block_community.py`:
`name`, `instance`, `block` (defaulting to `True`).  The Python
dataclass derives `__eq__` over the full field tuple. -/
structure BlockCommunity where
  name : String
  «instance» : String
  block : Bool := true
deriving DecidableEq

/-- The derived dataclass equality of `BlockCommunity`: Python compares
the tuple of all declared fields, `(name, instance, block)`. -/
def BlockCommunity.pyEq (a b : BlockCommunity) : Bool :=
  a.name == b.name && a.«instance» == b.«instance» && a.block == b.block

/-- A community record as carried by the transport responses:
`community.id` (nullable) and `community.name`. -/
structure Community where
  id : Option Int
  name : String
deriving DecidableEq

/-- One element of `ListCommunitiesResponse.communities`: the code reads
`community.community.id` and `community.community.name`. -/
structure CommunitySummary where
  community : Community
deriving DecidableEq

/-- The `community_view` as read by `block_community` in `lemmy_block.py`:
`community_view.blocked` (Python tri-state `True`/`False`/`None`) and
`community_view.community.id`. -/
structure CommunityView where
  community : Community
  blocked : Option Bool
deriving DecidableEq

/-- One element of `res.federated_instances.blocked`: the orchestrator
reads its `.domain` attribute. -/
structure FederatedInstance where
  domain : String
deriving DecidableEq

/-- Model of `Instance.login` from `instance.py`: the transport call is wrapped in
`try/except`; an exception yields `False`, otherwise `True`. -/
def Instance.login (outcome : Except String Unit) : Bool :=
  match outcome with
  | .ok _ => true
  | .error _ => false

/-- Model of `Instance.get_community` from `instance.py`: on transport success the
community view is returned, any exception is caught and `None` is
returned. -/
def Instance.get_community (outcome : Except String CommunityView) :
    Option CommunityView :=
  match outcome with
  | .ok cv => some cv
  | .error _ => none

/-- Model of `Instance.block_community` from `instance.py`: on transport success
`response.blocked` is returned, any exception is caught and `None` is
returned. -/
def Instance.block_community (outcome : Except String Bool) : Option Bool :=
  match outcome with
  | .ok b => some b
  | .error _ => none

/-- The `while attempts <= 2` retry loop of
`Instance.get_blocked_instances`.  `t n` is the outcome of the `n`-th
transport call (0-indexed): `some l` a successful
`get_federated_instances` returning blocked list `l`, `none` an
exception (which increments `attempts`).  Returns the final
`blocked_instances` value together with the number of transport calls
made.  The loop makes at most 3 iterations, so any `fuel ≥ 3` is exact;
the function is invoked with fuel 4. -/
def get_blocked_instances_loop (t : Nat → Option (List FederatedInstance)) :
    Nat → Nat → Nat → Option (List FederatedInstance) × Nat
  | _, calls, 0 => (none, calls)
  | attempts, calls, fuel + 1 =>
    if attempts ≤ 2 then
      match t calls with
      | some l => (some l, calls + 1)
      | none => get_blocked_instances_loop t (attempts + 1) (calls + 1) fuel
    else (none, calls)

/-- Model of `Instance.get_blocked_instances` from `instance.py`:
`blocked_instances = None; attempts = 0;` then the retry loop; the final
`blocked_instances` is returned (`None` when all attempts failed). -/
def get_blocked_instances (t : Nat → Option (List FederatedInstance)) :
    Option (List FederatedInstance) × Nat :=
  get_blocked_instances_loop t 0 0 4

/-- Targets appended for one successful page in
`get_all_communities_from_instance`: each community with a non-null id
becomes a `BlockCommunity` built with the default `block=True`. -/
def targetsOfPage (cs : List CommunitySummary) (inst : String) :
    List BlockCommunity :=
  cs.filterMap fun c =>
    match c.community.id with
    | none => none
    | some _ => some { name := c.community.name, «instance» := inst }

/-- The `while run:` pagination loop of
`get_all_communities_from_instance`.  `t limit page` is the outcome of
`srv.list_communities(limit=limit, page=page, type_="Local")`: `some cs`
a successful response with community list `cs`, `none` an exception.
State: current `page` and accumulated `block_list`.  Returns the
accumulated list and the number of page requests made.  Fuel bounds the
number of iterations (the source loop itself has no bound: it ends at
the first empty page or failed request). -/
def gatherLoop (t : Nat → Nat → Option (List CommunitySummary))
    (inst : String) :
    Nat → List BlockCommunity → Nat → List BlockCommunity × Nat
  | _, acc, 0 => (acc, 0)
  | page, acc, fuel + 1 =>
    match t 50 page with
    | none => (acc, 1)
    | some cs =>
      if cs.length = 0 then (acc, 1)
      else
        let r := gatherLoop t inst (page + 1) (acc ++ targetsOfPage cs inst) fuel
        (r.1, r.2 + 1)

/-- Model of `get_all_communities_from_instance` from `lemmy_block.py`: start at
page 1 with an empty `block_list`, requesting 50 local communities per
page. -/
def get_all_communities_from_instance
    (t : Nat → Nat → Option (List CommunitySummary)) (inst : String)
    (fuel : Nat) : List BlockCommunity × Nat :=
  gatherLoop t inst 1 [] fuel

/-- The targets produced by the successful pages `start, start+1, …,
start+k-1`, concatenated in page order. -/
def pagesConcat (t : Nat → Nat → Option (List CommunitySummary))
    (inst : String) : Nat → Nat → List BlockCommunity
  | _, 0 => []
  | start, k + 1 =>
    targetsOfPage ((t 50 start).getD []) inst ++ pagesConcat t inst (start + 1) k

/-- Remote calls observable per target in the orchestrator:
`lookupCall` is `instance.get_community(...)`, `blockCall` is
`instance.block_community(block=..., community_id=...)`. -/
inductive Event where
  | lookupCall (qname : String)
  | blockCall (id : Option Int) (blockState : Bool)
deriving DecidableEq

/-- How the orchestrator disposed of one target. -/
inductive TargetOutcome where
  | skippedFederation
  | lookupFailed
  | alreadyBlocked
  | blockIssued (id : Option Int) (blockState : Bool) (resp : Option Bool)
deriving DecidableEq

/-- The qualified community name `f"{community.name}@{community.instance}"`. -/
def qualifiedName (c : BlockCommunity) : String :=
  c.name ++ "@" ++ c.«instance»

/-- The `block_community` function of `lemmy_block.py` (per-target
logic): look up the community view; if the lookup failed (`None`, so the
attribute access raises and is caught) the target is skipped; if
`community_view.blocked is True` the target is skipped as already
blocked; otherwise `instance.block_community(block=community.block,
community_id=community_view.community.id)` is issued.  `lookup` models
`instance.get_community`, `blockResp` models
`instance.block_community`. -/
def block_community_step (lookup : String → Option CommunityView)
    (blockResp : Option Int → Bool → Option Bool) (c : BlockCommunity) :
    TargetOutcome × List Event :=
  match lookup (qualifiedName c) with
  | none => (.lookupFailed, [.lookupCall (qualifiedName c)])
  | some cv =>
    if cv.blocked = some true then
      (.alreadyBlocked, [.lookupCall (qualifiedName c)])
    else
      (.blockIssued cv.community.id c.block (blockResp cv.community.id c.block),
        [.lookupCall (qualifiedName c), .blockCall cv.community.id c.block])

/-- The body of the per-target loop in `block_communities`: when a
concrete blocked-instances list was retrieved and some entry's `.domain`
equals the target's instance, the target is skipped (`continue`) before
any remote call; otherwise `block_community` runs. -/
def process_target (blocked_instances : Option (List FederatedInstance))
    (lookup : String → Option CommunityView)
    (blockResp : Option Int → Bool → Option Bool) (c : BlockCommunity) :
    TargetOutcome × List Event :=
  match blocked_instances with
  | none => block_community_step lookup blockResp c
  | some bl =>
    if bl.any (fun i => i.domain == c.«instance») then (.skippedFederation, [])
    else block_community_step lookup blockResp c

/-- One `Instance` object together with the behaviour of its transport:
`loginOk` is the result of `Instance.login`, `fedOutcomes` drives
`get_blocked_instances`, `lookup` and `blockResp` are
`get_community` / `block_community` results. -/
structure InstanceModel where
  account : Account
  loginOk : Bool
  fedOutcomes : Nat → Option (List FederatedInstance)
  lookup : String → Option CommunityView
  blockResp : Option Int → Bool → Option Bool

/-- The outcome `block_communities` produces for one account: on login
failure nothing further runs for that instance; on success every target
of the block list is processed in order. -/
inductive AccountOutcome where
  | loginFailed (user : String)
  | processed (user : String) (results : List (TargetOutcome × List Event))

/-- The per-instance body of `block_communities`: attempt login; if it
returned `True`, fetch the blocked instances (best effort) and run the
per-target loop over the whole block list. -/
def process_account (inst : InstanceModel) (block_list : List BlockCommunity) :
    AccountOutcome :=
  if inst.loginOk then
    let blocked := (get_blocked_instances inst.fedOutcomes).1
    .processed inst.account.user
      (block_list.map (process_target blocked inst.lookup inst.blockResp))
  else .loginFailed inst.account.user

/-- Model of `block_communities` from `lemmy_block.py`: the outer loop over the
configured instances. -/
def block_communities (instances : List InstanceModel)
    (block_list : List BlockCommunity) : List AccountOutcome :=
  instances.map fun inst => process_account inst block_list

/-- All remote-call events of a processed account's results, in order. -/
def events_of (rs : List (TargetOutcome × List Event)) : List Event :=
  match rs with
  | [] => []
  | r :: rs => r.2 ++ events_of rs

/-- An instance whose login succeeds but whose federation fetch always
fails, and whose lookups all fail. -/
def instNoFed : InstanceModel where
  account := ⟨"acc", "site", "u", "pw"⟩
  loginOk := true
  fedOutcomes := fun _ => none
  lookup := fun _ => none
  blockResp := fun _ _ => none

/-- An instance whose login fails. -/
def instBad : InstanceModel where
  account := ⟨"acc2", "site2", "u2", "pw2"⟩
  loginOk := false
  fedOutcomes := fun _ => none
  lookup := fun _ => none
  blockResp := fun _ _ => none

/-- Under an already-blocked lookup result, a target's event list is
either empty (federation skip) or exactly the lookup call — never a
block call. -/
theorem process_target_events_already_blocked
    (blocked : Option (List FederatedInstance))
    (lookup : String → Option CommunityView)
    (blockResp : Option Int → Bool → Option Bool) (c : BlockCommunity)
    (cv : CommunityView) (hl : lookup (qualifiedName c) = some cv)
    (hb : cv.blocked = some true) :
    (process_target blocked lookup blockResp c).2 = []
    ∨ (process_target blocked lookup blockResp c).2
        = [Event.lookupCall (qualifiedName c)] := by
  cases blocked with
  | none =>
    right
    simp [process_target, block_community_step, hl, hb]
  | some l =>
    by_cases hany : l.any (fun i => i.domain == c.«instance») = true
    · left
      simp [process_target, hany]
    · right
      simp [process_target, hany, block_community_step, hl, hb]

/-- A page of 50 identical community summaries with non-null ids. -/
def page50 : List CommunitySummary := List.replicate 50 ⟨⟨some 1, "c"⟩⟩

/-- Page oracle: pages 1 and 2 return 50 communities, page 3 returns
zero communities. -/
def pagesOk : Nat → Nat → Option (List CommunitySummary) :=
  fun _ page => if page ≤ 2 then some page50 else some []

/-- Page oracle: page 1 returns 50 communities, the request for every
later page fails. -/
def pagesErr : Nat → Nat → Option (List CommunitySummary) :=
  fun _ page => if page = 1 then some page50 else none

/-- Characterization of the pagination loop: if pages `start … start+k-1`
succeed non-empty and page `start+k` is empty or fails, the loop returns
the accumulator followed by those pages' targets in page order, after
exactly `k + 1` page requests. -/
theorem gatherLoop_spec (t : Nat → Nat → Option (List CommunitySummary))
    (inst : String) :
    ∀ (k start : Nat) (acc : List BlockCommunity) (fuel : Nat),
      (∀ p, p < k → ∃ cs, t 50 (start + p) = some cs ∧ cs ≠ []) →
      (t 50 (start + k) = none ∨ t 50 (start + k) = some []) →
      k + 1 ≤ fuel →
      gatherLoop t inst start acc fuel
        = (acc ++ pagesConcat t inst start k, k + 1) := by
  intro k
  induction k with
  | zero =>
    intro start acc fuel _ hend hfuel
    obtain ⟨fuel, rfl⟩ : ∃ f, fuel = f + 1 := ⟨fuel - 1, by omega⟩
    rw [Nat.add_zero] at hend
    rcases hend with h | h <;> simp [gatherLoop, pagesConcat, h]
  | succ k ih =>
    intro start acc fuel hpages hend hfuel
    obtain ⟨fuel, rfl⟩ : ∃ f, fuel = f + 1 := ⟨fuel - 1, by omega⟩
    obtain ⟨cs, hcs, hne⟩ := hpages 0 (Nat.succ_pos k)
    rw [Nat.add_zero] at hcs
    have hlen : ¬cs.length = 0 := by
      simpa [List.length_eq_zero] using hne
    have e1 : start + (k + 1) = start + 1 + k := by omega
    have ih' := ih (start + 1) (acc ++ targetsOfPage cs inst) fuel
      (fun p hp => by
        have h := hpages (p + 1) (by omega)
        have e2 : start + (p + 1) = start + 1 + p := by omega
        rwa [e2] at h)
      (by rwa [e1] at hend)
      (by omega)
    simp [gatherLoop, hcs, hlen, ih', pagesConcat, List.append_assoc]

/-- C5: discovery starts at page 1 with pages of up to 50 local
communities, stops at the first empty or failing page without
propagating the failure, and returns exactly the targets accumulated
from the preceding successful pages, in page order, after exactly
`k + 1` page requests. -/
theorem discovery_pagination
    (t : Nat → Nat → Option (List CommunitySummary)) (inst : String)
    (k fuel : Nat)
    (hpages : ∀ p, p < k → ∃ cs, t 50 (1 + p) = some cs ∧ cs ≠ [])
    (hend : t 50 (1 + k) = none ∨ t 50 (1 + k) = some [])
    (hfuel : k + 1 ≤ fuel) :
    get_all_communities_from_instance t inst fuel
      = (pagesConcat t inst 1 k, k + 1) := by
  simpa [get_all_communities_from_instance] using
    gatherLoop_spec t inst k 1 [] fuel hpages hend hfuel

/-- Witness for C5: pages of 50, 50, 0 yield exactly 100 targets after
exactly 3 page requests; a failing 2nd page yields exactly page 1's 50
targets after 2 page requests. -/
theorem discovery_pagination_witness :
    get_all_communities_from_instance pagesOk "src" 3
      = (pagesConcat pagesOk "src" 1 2, 3)
    ∧ (pagesConcat pagesOk "src" 1 2).length = 100
    ∧ get_all_communities_from_instance pagesErr "src" 9
      = (pagesConcat pagesErr "src" 1 1, 2)
    ∧ (pagesConcat pagesErr "src" 1 1).length = 50 :=
  ⟨discovery_pagination pagesOk "src" 2 3
      (fun p hp => ⟨page50, by interval_cases p <;> exact ⟨rfl, by decide⟩⟩)
      (Or.inr rfl) (by decide),
    by decide,
    discovery_pagination pagesErr "src" 1 9
      (fun p hp => ⟨page50, by interval_cases p; exact ⟨rfl, by decide⟩⟩)
      (Or.inl rfl) (by decide),
    by decide⟩

/-- Every target built from one page carries the default `block=True`. -/
theorem targetsOfPage_block_true (cs : List CommunitySummary)
    (inst : String) : ∀ c ∈ targetsOfPage cs inst, c.block = true := by
  intro c hc
  rw [targetsOfPage, List.mem_filterMap] at hc
  obtain ⟨s, _, hs⟩ := hc
  cases h : s.community.id with
  | none =>
    rw [h] at hs
    simp at hs
  | some i =>
    rw [h] at hs
    simp at hs
    rw [← hs]

/-- The pagination loop only ever appends default-`block` targets. -/
theorem gatherLoop_block_true (t : Nat → Nat → Option (List CommunitySummary))
    (inst : String) :
    ∀ (fuel page : Nat) (acc : List BlockCommunity),
      (∀ c ∈ acc, c.block = true) →
      ∀ c ∈ (gatherLoop t inst page acc fuel).1, c.block = true := by
  intro fuel
  induction fuel with
  | zero =>
    intro page acc hacc
    simpa [gatherLoop] using hacc
  | succ fuel ih =>
    intro page acc hacc c hc
    rw [gatherLoop] at hc
    cases h : t 50 page with
    | none =>
      rw [h] at hc
      exact hacc c hc
    | some cs =>
      rw [h] at hc
      by_cases hlen : cs.length = 0
      · simp only [hlen, if_true] at hc
        exact hacc c hc
      · simp only [hlen, if_false] at hc
        refine ih (page + 1) (acc ++ targetsOfPage cs inst) ?_ c hc
        intro c' hc'
        rcases List.mem_append.mp hc' with h' | h'
        · exact hacc c' h'
        · exact targetsOfPage_block_true cs inst c' h'

/-- Every event of one per-target step is the lookup call or a block
call carrying the target's own desired block state. -/
theorem block_community_step_events (lookup : String → Option CommunityView)
    (blockResp : Option Int → Bool → Option Bool) (c : BlockCommunity) :
    ∀ e ∈ (block_community_step lookup blockResp c).2,
      (∃ q, e = Event.lookupCall q)
      ∨ ∃ id, e = Event.blockCall id c.block := by
  intro e he
  unfold block_community_step at he
  cases h : lookup (qualifiedName c) with
  | none =>
    rw [h] at he
    simp at he
    exact Or.inl ⟨_, he⟩
  | some cv =>
    rw [h] at he
    by_cases hb : cv.blocked = some true
    · simp only [hb, if_true, List.mem_singleton] at he
      exact Or.inl ⟨_, he⟩
    · simp only [hb, if_false, List.mem_cons, List.mem_singleton,
        List.not_mem_nil, or_false] at he
      rcases he with he | he
      · exact Or.inl ⟨_, he⟩
      · exact Or.inr ⟨_, he⟩

/-- A target's event list is either empty (federation skip) or exactly
its per-target step's event list. -/
theorem process_target_events_sub (blocked : Option (List FederatedInstance))
    (lookup : String → Option CommunityView)
    (blockResp : Option Int → Bool → Option Bool) (c : BlockCommunity) :
    (process_target blocked lookup blockResp c).2 = []
    ∨ (process_target blocked lookup blockResp c).2
        = (block_community_step lookup blockResp c).2 := by
  cases blocked with
  | none =>
    right
    rfl
  | some l =>
    by_cases h : l.any (fun i => i.domain == c.«instance») = true
    · left
      simp [process_target, h]
    · right
      simp [process_target, h]

/-- Membership in the concatenated event stream. -/
theorem mem_events_of (rs : List (TargetOutcome × List Event)) (e : Event) :
    e ∈ events_of rs ↔ ∃ r ∈ rs, e ∈ r.2 := by
  induction rs with
  | nil => simp [events_of]
  | cons r rs ih => simp [events_of, ih]

/-- Retry oracle that fails on attempts 1 and 2 and succeeds on attempt 3. -/
def fedThirdTry : Nat → Option (List FederatedInstance) :=
  fun n => if n = 2 then some [⟨"lemmygrad.ml"⟩] else none

/-- C2: the Federation Guard fetch makes at most 3 transport attempts,
returns the blocked-instances list from the first successful attempt
with no further attempt (failures on attempts 1 and 2 followed by
success on attempt 3 give the list from attempt 3 after exactly 3
calls), and returns the distinct indeterminate value `none` (not an
empty list) when all 3 attempts fail. -/
theorem federation_guard_retry_policy
    (t : Nat → Option (List FederatedInstance)) :
    (get_blocked_instances t).2 ≤ 3
    ∧ (∀ l, t 0 = some l → get_blocked_instances t = (some l, 1))
    ∧ (∀ l, t 0 = none → t 1 = some l → get_blocked_instances t = (some l, 2))
    ∧ (∀ l, t 0 = none → t 1 = none → t 2 = some l →
        get_blocked_instances t = (some l, 3))
    ∧ (t 0 = none → t 1 = none → t 2 = none →
        get_blocked_instances t = (none, 3)) := by
  refine ⟨?_, ?_, ?_, ?_, ?_⟩
  · cases h0 : t 0 <;> cases h1 : t 1 <;> cases h2 : t 2 <;>
      simp [get_blocked_instances, get_blocked_instances_loop, h0, h1, h2]
  · intro l h0
    simp [get_blocked_instances, get_blocked_instances_loop, h0]
  · intro l h0 h1
    simp [get_blocked_instances, get_blocked_instances_loop, h0, h1]
  · intro l h0 h1 h2
    simp [get_blocked_instances, get_blocked_instances_loop, h0, h1, h2]
  · intro h0 h1 h2
    simp [get_blocked_instances, get_blocked_instances_loop, h0, h1, h2]

/-- Witness for C2: with failures on attempts 1 and 2 and a success on
attempt 3, the fetch returns that attempt's list after exactly 3 calls. -/
theorem federation_guard_retry_policy_witness :
    fedThirdTry 0 = none ∧ fedThirdTry 1 = none
    ∧ fedThirdTry 2 = some [⟨"lemmygrad.ml"⟩]
    ∧ get_blocked_instances fedThirdTry = (some [⟨"lemmygrad.ml"⟩], 3) :=
  ⟨rfl, rfl, rfl,
    (federation_guard_retry_policy fedThirdTry).2.2.2.1 _ rfl rfl rfl⟩

/-- C3: when a concrete blocked-instances list was obtained and some
entry's domain equals the target's hosting instance, the orchestrator
skips the target: the outcome is `skippedFederation` and the event list
is empty, so neither the community lookup nor the block call is
invoked. -/
theorem federation_skip_correct (blocked : List FederatedInstance)
    (lookup : String → Option CommunityView)
    (blockResp : Option Int → Bool → Option Bool) (c : BlockCommunity)
    (hmem : ∃ i ∈ blocked, i.domain = c.«instance») :
    process_target (some blocked) lookup blockResp c
      = (.skippedFederation, []) := by
  obtain ⟨i, hi, hd⟩ := hmem
  have hany : blocked.any (fun i => i.domain == c.«instance») = true := by
    rw [List.any_eq_true]
    exact ⟨i, hi, by simpa using hd⟩
  simp [process_target, hany]

/-- Witness for C3: a concrete blocked list containing the target's
hosting instance makes the orchestrator skip it with no remote calls. -/
theorem federation_skip_correct_witness :
    process_target (some [⟨"bad.social"⟩]) (fun _ => none) (fun _ _ => none)
        ⟨"c", "bad.social", true⟩
      = (.skippedFederation, []) :=
  federation_skip_correct [⟨"bad.social"⟩] (fun _ => none) (fun _ _ => none)
    ⟨"c", "bad.social", true⟩ ⟨⟨"bad.social"⟩, by simp, rfl⟩

/-- C8: a successful lookup whose `blocked` flag is null (`None`) does
not fire the already-blocked test (`blocked is True`); the target falls
through and the block call is issued. -/
theorem null_blocked_flag_falls_through
    (lookup : String → Option CommunityView)
    (blockResp : Option Int → Bool → Option Bool) (c : BlockCommunity)
    (cv : CommunityView) (hl : lookup (qualifiedName c) = some cv)
    (hb : cv.blocked = none) :
    block_community_step lookup blockResp c
      = (.blockIssued cv.community.id c.block (blockResp cv.community.id c.block),
          [.lookupCall (qualifiedName c), .blockCall cv.community.id c.block]) := by
  simp [block_community_step, hl, hb]

/-- Witness for C8: a view with a null blocked flag leads to a block
call being issued. -/
theorem null_blocked_flag_falls_through_witness :
    block_community_step (fun _ => some ⟨⟨some 7, "c"⟩, none⟩)
        (fun _ _ => some true) ⟨"c", "i", true⟩
      = (.blockIssued (some 7) true (some true),
          [.lookupCall (qualifiedName ⟨"c", "i", true⟩),
            .blockCall (some 7) true]) :=
  null_blocked_flag_falls_through (fun _ => some ⟨⟨some 7, "c"⟩, none⟩)
    (fun _ _ => some true) ⟨"c", "i", true⟩ ⟨⟨some 7, "c"⟩, none⟩ rfl rfl

/-- C9 counterexample: two `BlockCommunity` values with equal
`(name, instance)` pairs but different `block` fields are not equal
under the dataclass equality, refuting "equal iff the (name, hosting
instance) pairs are equal". -/
theorem blockCommunity_eq_counterexample :
    BlockCommunity.pyEq ⟨"a", "i", true⟩ ⟨"a", "i", false⟩ = false
    ∧ (BlockCommunity.name ⟨"a", "i", true⟩,
        BlockCommunity.«instance» ⟨"a", "i", true⟩)
      = (BlockCommunity.name ⟨"a", "i", false⟩,
          BlockCommunity.«instance» ⟨"a", "i", false⟩) :=
  ⟨rfl, rfl⟩

/-- C9 amended: the dataclass equality of `BlockCommunity` compares the
full `(name, instance, block)` field tuple; when both values carry the
default blocked state it coincides with equality of
`(name, instance)`. -/
theorem blockCommunity_pyEq_characterization (a b : BlockCommunity) :
    (BlockCommunity.pyEq a b = true
      ↔ a.name = b.name ∧ a.«instance» = b.«instance» ∧ a.block = b.block)
    ∧ (a.block = true → b.block = true →
        (BlockCommunity.pyEq a b = true
          ↔ (a.name, a.«instance») = (b.name, b.«instance»))) := by
  constructor
  · simp [BlockCommunity.pyEq, and_assoc]
  · intro ha hb
    simp [BlockCommunity.pyEq, ha, hb, Prod.ext_iff, and_assoc]

/-- Witness for C9's amended statement at two default-state values. -/
theorem blockCommunity_pyEq_characterization_witness :
    BlockCommunity.pyEq ⟨"a", "i", true⟩ ⟨"a", "j", true⟩ = true
      ↔ ((("a" : String), ("i" : String)) = (("a" : String), ("j" : String))) :=
  (blockCommunity_pyEq_characterization ⟨"a", "i", true⟩ ⟨"a", "j", true⟩).2
    rfl rfl

/-- C1: when the Federation Guard fetch is indeterminate (`None`), the
account's run routes every target, in order, through the per-target
lookup / already-blocked / block logic, and that logic never yields an
instance-level skip — the indeterminate result is never treated as an
empty block set. -/
theorem indeterminate_safety (inst : InstanceModel)
    (bl : List BlockCommunity) (hlogin : inst.loginOk = true)
    (hfed : (get_blocked_instances inst.fedOutcomes).1 = none) :
    process_account inst bl
      = .processed inst.account.user
          (bl.map (block_community_step inst.lookup inst.blockResp))
    ∧ ∀ (lookup : String → Option CommunityView)
        (blockResp : Option Int → Bool → Option Bool) (c : BlockCommunity),
        (block_community_step lookup blockResp c).1
          ≠ TargetOutcome.skippedFederation := by
  constructor
  · have h1 : process_target (get_blocked_instances inst.fedOutcomes).1
        inst.lookup inst.blockResp
        = block_community_step inst.lookup inst.blockResp := by
      rw [hfed]
      rfl
    simp only [process_account, hlogin, if_true]
    rw [h1]
  · intro lookup blockResp c
    unfold block_community_step
    cases lookup (qualifiedName c) with
    | none => simp
    | some cv => by_cases h : cv.blocked = some true <;> simp [h]

/-- Witness for C1: with all three federation-fetch attempts failing,
the single target is still routed through the per-target logic. -/
theorem indeterminate_safety_witness :
    process_account instNoFed [⟨"c", "i", true⟩]
      = .processed "u"
          ([⟨"c", "i", true⟩].map
            (block_community_step instNoFed.lookup instNoFed.blockResp)) :=
  (indeterminate_safety instNoFed [⟨"c", "i", true⟩] rfl (by decide)).1

/-- C4: a lookup reporting the community already blocked
(`blocked is True`) makes the orchestrator skip the target with no
block call; consequently a pass in which the remote reports every
target already blocked issues zero block calls. -/
theorem already_blocked_skip_idempotent
    (lookup : String → Option CommunityView)
    (blockResp : Option Int → Bool → Option Bool) :
    (∀ c cv, lookup (qualifiedName c) = some cv → cv.blocked = some true →
        block_community_step lookup blockResp c
          = (.alreadyBlocked, [.lookupCall (qualifiedName c)]))
    ∧ (∀ (blocked : Option (List FederatedInstance))
        (bl : List BlockCommunity),
        (∀ c ∈ bl, ∃ cv, lookup (qualifiedName c) = some cv
          ∧ cv.blocked = some true) →
        ∀ e ∈ events_of (bl.map (process_target blocked lookup blockResp)),
          ∀ id b, e ≠ Event.blockCall id b) := by
  constructor
  · intro c cv hl hb
    simp [block_community_step, hl, hb]
  · intro blocked bl
    induction bl with
    | nil =>
      intro _ e he
      simp [events_of] at he
    | cons c bl ih =>
      intro hall e he id b
      obtain ⟨cv, hl, hb⟩ := hall c (by simp)
      rw [List.map_cons] at he
      have hsplit : e ∈ (process_target blocked lookup blockResp c).2
          ∨ e ∈ events_of (bl.map (process_target blocked lookup blockResp)) := by
        simpa [events_of] using he
      rcases hsplit with h | h
      · rcases process_target_events_already_blocked blocked lookup blockResp
            c cv hl hb with h2 | h2 <;> rw [h2] at h
        · simp at h
        · simp only [List.mem_singleton] at h
          subst h
          simp
      · exact ih (fun c' hc' => hall c' (by simp [hc'])) e h id b

/-- Witness for C4: a target whose view reports `blocked = True` is
skipped with only the lookup call issued, and a second pass over a
one-target list with everything reported blocked contains no block
call. -/
theorem already_blocked_skip_idempotent_witness :
    block_community_step (fun _ => some ⟨⟨some 1, "c"⟩, some true⟩)
        (fun _ _ => some true) ⟨"c", "i", true⟩
      = (.alreadyBlocked, [.lookupCall (qualifiedName ⟨"c", "i", true⟩)])
    ∧ Event.blockCall (some 1) true
        ∉ events_of ([⟨"c", "i", true⟩].map
            (process_target none (fun _ => some ⟨⟨some 1, "c"⟩, some true⟩)
              (fun _ _ => some true))) :=
  ⟨(already_blocked_skip_idempotent (fun _ => some ⟨⟨some 1, "c"⟩, some true⟩)
      (fun _ _ => some true)).1 ⟨"c", "i", true⟩ ⟨⟨some 1, "c"⟩, some true⟩
      rfl rfl,
    fun h =>
      (already_blocked_skip_idempotent (fun _ => some ⟨⟨some 1, "c"⟩, some true⟩)
          (fun _ _ => some true)).2 none [⟨"c", "i", true⟩]
        (fun _ _ => ⟨⟨⟨some 1, "c"⟩, some true⟩, rfl, rfl⟩)
        (Event.blockCall (some 1) true) h (some 1) true rfl⟩

/-- C6: failures are contained at the narrowest scope: a login failure
yields no processed targets for that account only; each account's
outcome in `block_communities` depends only on its own instance (so
remaining accounts are fully processed); and a lookup failure for the
2nd of 3 targets leaves targets 1 and 3 processed with only the 2nd
marked `lookupFailed`. -/
theorem failure_containment :
    (∀ (inst : InstanceModel) (bl : List BlockCommunity),
        inst.loginOk = false →
        process_account inst bl = .loginFailed inst.account.user)
    ∧ (∀ (instances : List InstanceModel) (bl : List BlockCommunity),
        (block_communities instances bl).length = instances.length
        ∧ ∀ i : Nat, (block_communities instances bl)[i]?
            = (instances[i]?).map fun inst => process_account inst bl)
    ∧ (∀ (lookup : String → Option CommunityView)
        (blockResp : Option Int → Bool → Option Bool)
        (c1 c2 c3 : BlockCommunity),
        lookup (qualifiedName c2) = none →
        [c1, c2, c3].map (process_target none lookup blockResp)
          = [process_target none lookup blockResp c1,
              (.lookupFailed, [.lookupCall (qualifiedName c2)]),
              process_target none lookup blockResp c3]) := by
  refine ⟨?_, ?_, ?_⟩
  · intro inst bl h
    simp [process_account, h]
  · intro instances bl
    refine ⟨by simp [block_communities], ?_⟩
    intro i
    simp [block_communities, List.getElem?_map]
  · intro lookup blockResp c1 c2 c3 h
    simp [process_target, block_community_step, h]

/-- Witness for C6: a failing login processes nothing, and with a
3-target list whose 2nd lookup fails, targets 1 and 3 still get their
own outcomes. -/
theorem failure_containment_witness :
    process_account instBad [] = .loginFailed "u2"
    ∧ [⟨"a", "i", true⟩, ⟨"b", "i", true⟩, ⟨"c", "i", true⟩].map
        (process_target none (fun _ => none) (fun _ _ => none))
      = [process_target none (fun _ => none) (fun _ _ => none)
            ⟨"a", "i", true⟩,
          (.lookupFailed, [.lookupCall (qualifiedName ⟨"b", "i", true⟩)]),
          process_target none (fun _ => none) (fun _ _ => none)
            ⟨"c", "i", true⟩] :=
  ⟨failure_containment.1 instBad [] rfl,
    failure_containment.2.2 (fun _ => none) (fun _ _ => none)
      ⟨"a", "i", true⟩ ⟨"b", "i", true⟩ ⟨"c", "i", true⟩ rfl⟩

/-- C10: the `Instance` wrappers are total over transport outcomes:
`login` returns `True` exactly when the transport login succeeds and
`False` otherwise; `get_community` and `block_community` return `None`
on any transport failure and the transport's value on success — no
outcome propagates an exception. -/
theorem instance_wrappers_total (o1 : Except String Unit)
    (o2 : Except String CommunityView) (o3 : Except String Bool) :
    (Instance.login o1 = true ↔ ∃ u, o1 = Except.ok u)
    ∧ (∀ e, o2 = Except.error e → Instance.get_community o2 = none)
    ∧ (∀ cv, o2 = Except.ok cv → Instance.get_community o2 = some cv)
    ∧ (∀ e, o3 = Except.error e → Instance.block_community o3 = none)
    ∧ (∀ b, o3 = Except.ok b → Instance.block_community o3 = some b) := by
  refine ⟨?_, ?_, ?_, ?_, ?_⟩
  · cases o1 with
    | ok u => simp [Instance.login]
    | error e => simp [Instance.login]
  · intro e he
    subst he
    rfl
  · intro cv hcv
    subst hcv
    rfl
  · intro e he
    subst he
    rfl
  · intro b hb
    subst hb
    rfl

/-- Witness for C10 at a successful login and failing lookup/block. -/
theorem instance_wrappers_total_witness :
    Instance.login (Except.ok ()) = true
    ∧ Instance.get_community (Except.error "boom") = none
    ∧ Instance.block_community (Except.error "boom") = none :=
  ⟨(instance_wrappers_total (Except.ok ()) (Except.error "boom")
      (Except.error "boom")).1.mpr ⟨(), rfl⟩,
    (instance_wrappers_total (Except.ok ()) (Except.error "boom")
      (Except.error "boom")).2.1 "boom" rfl,
    (instance_wrappers_total (Except.ok ()) (Except.error "boom")
      (Except.error "boom")).2.2.2.1 "boom" rfl⟩

/-- C7: the system never issues an unblock: every target produced by
discovery carries the default desired state `block=True`, and for any
target list all of whose targets carry `block=True`, every block call
event of the run carries block state `true` (no event is a block call
with `false`). -/
theorem never_unblocks (t : Nat → Nat → Option (List CommunitySummary))
    (inst : String) (fuel : Nat) :
    (∀ c ∈ (get_all_communities_from_instance t inst fuel).1, c.block = true)
    ∧ ∀ (blocked : Option (List FederatedInstance))
        (lookup : String → Option CommunityView)
        (blockResp : Option Int → Bool → Option Bool)
        (bl : List BlockCommunity),
        (∀ c ∈ bl, c.block = true) →
        ∀ e ∈ events_of (bl.map (process_target blocked lookup blockResp)),
          ∀ id, e ≠ Event.blockCall id false := by
  constructor
  · exact gatherLoop_block_true t inst fuel 1 [] (by simp)
  · intro blocked lookup blockResp bl hall e he id
    rw [mem_events_of] at he
    obtain ⟨r, hr, her⟩ := he
    rw [List.mem_map] at hr
    obtain ⟨c, hc, rfl⟩ := hr
    rcases process_target_events_sub blocked lookup blockResp c with h | h
    · rw [h] at her
      simp at her
    · rw [h] at her
      rcases block_community_step_events lookup blockResp c e her with
        ⟨q, rfl⟩ | ⟨i, rfl⟩
      · simp
      · rw [hall c hc]
        simp

/-- Witness for C7: a run over a discovery-style target (default
`block=True`) whose lookup returns an unblocked view contains no
`blockCall _ false` event. -/
theorem never_unblocks_witness :
    Event.blockCall (some 7) false
      ∉ events_of ([⟨"c", "i", true⟩].map
          (process_target none (fun _ => some ⟨⟨some 7, "c"⟩, none⟩)
            (fun _ _ => some true))) :=
  fun h =>
    (never_unblocks pagesOk "src" 0).2 none
      (fun _ => some ⟨⟨some 7, "c"⟩, none⟩) (fun _ _ => some true)
      [⟨"c", "i", true⟩] (by decide) (Event.blockCall (some 7) false) h
      (some 7) rfl

end LemmyBlock
